import Mathlib

/-!
# A shallow embedding of `ovirt.py`

This file embeds the core of `ovirt.py`, a dynamic Ansible inventory script
for MANTL on oVirt, and proves theorems about its behaviour.

Modelling conventions:

* Python dictionaries are modelled as association lists with an
  insert-or-update operation (`upsert`); lookups go through `lookup'`.
  Key order is irrelevant to every statement below (all access is by key).
* Fallible Python code (a `ConfigParser.NoOptionError`, an `AttributeError`
  from dereferencing `None`, a `KeyError`, coercion errors, API failures) is
  modelled with `Except PyError`.
* The external oVirt SDK is abstracted: the list of VM records an API query
  returns is a function parameter (`ApiFun`), and the by-name NIC lookup
  `vm.get_nics().get(name=...)` is modelled as returning the interface with
  that name when present and `none` otherwise.
* The external `re` module is abstracted as a parameter
  `reSem : String → String → Bool` mapping a pattern string to the boolean
  outcome of `re.compile(pattern).match(subject)`; a concrete model
  (`reSemModel`) is supplied for the two pattern strings a default
  configuration compiles.
-/

namespace OvirtInv

/-! ## Definitions: the embedded program, its external collaborators, and
the trace vocabulary used by the theorems -/


/-- Failures of the external API client adapter (`ovirtsdk`): connection or
authentication failures, and query failures. -/
inductive ApiError where
  | connection (msg : String)
  | query (msg : String)
deriving DecidableEq

/-- Python-level exceptions the embedded code can raise. -/
inductive PyError where
  | noOptionError
  | attributeError
  | keyError
  | valueError
  | typeError
  | apiError (e : ApiError)
deriving DecidableEq

/-- Decidable equality for `Except`, so concrete runs of the embedded code
can be checked by evaluation. -/
def exceptDecEq {ε α : Type _} [DecidableEq ε] [DecidableEq α] :
    (a b : Except ε α) → Decidable (a = b)
  | Except.ok a, Except.ok b =>
      if h : a = b then Decidable.isTrue (by rw [h])
      else Decidable.isFalse (fun he => h (Except.ok.inj he))
  | Except.ok _, Except.error _ => Decidable.isFalse (fun he => Except.noConfusion he)
  | Except.error _, Except.ok _ => Decidable.isFalse (fun he => Except.noConfusion he)
  | Except.error e, Except.error f =>
      if h : e = f then Decidable.isTrue (by rw [h])
      else Decidable.isFalse (fun he => h (Except.error.inj he))

instance {ε α : Type _} [DecidableEq ε] [DecidableEq α] : DecidableEq (Except ε α) :=
  exceptDecEq

/-- An IP record on a reported device (`ip.get_address()`). -/
structure IpRecord where
  address : String
deriving DecidableEq

/-- A reported device on a NIC (`device.get_ips().get_ip()`). -/
structure ReportedDevice where
  ips : List IpRecord
deriving DecidableEq

/-- A network interface record of a VM: a name and the reported devices
(`nic.get_reported_devices().get_reported_device()`). -/
structure Nic where
  name : String
  reported_devices : List ReportedDevice
deriving DecidableEq

/-- A VM status record (`vm.status.state`). -/
structure VMStatus where
  state : String
deriving DecidableEq

/-- A VM record as consumed by the script: a status and the NIC records
(`vm.get_nics().list()`). -/
structure VM where
  status : VMStatus
  nics : List Nic
deriving DecidableEq

/- oVirt configuration keys, from the constant block of `ovirt.py`. -/

def OVIRT_API_INSECURE : String := "ovirt_api_insecure"

def OVIRT_CA : String := "ovirt_ca"

def OVIRT_IP_REGEX : String := "ovirt_ip_regex"

def OVIRT_NIC_NAME : String := "ovirt_nic_name"

def OVIRT_PASSWORD : String := "ovirt_password"

def OVIRT_TAG_CONTROL : String := "ovirt_tag_control"

def OVIRT_TAG_WORKER : String := "ovirt_tag_worker"

def OVIRT_URL : String := "ovirt_url"

def OVIRT_USERNAME : String := "ovirt_username"

def OVIRT_DC : String := "ovirt_dc"

/- ansible configuration keys. -/

def ANSIBLE_SSH_PK : String := "ansible_ssh_private_key_file"

def ANSIBLE_SSH_PORT : String := "ansible_ssh_port"

def ANSIBLE_SSH_USER : String := "ansible_ssh_user"

def ANSIBLE_SSH_PASS : String := "ansible_ssh_pass"

/- MI specific configuration keys. -/

def CONSUL_DC : String := "consul_dc"

/-- Association-list lookup (Python `d[k]` / `k in d`, by key). -/
def lookup' {α : Type _} (m : List (String × α)) (k : String) : Option α :=
  (m.find? (fun p => p.1 == k)).map Prod.snd

/-- Association-list insert-or-update (Python `d[k] = v`): replace the
binding when the key is present (every dict this program builds has unique
keys), append it otherwise. -/
def upsert {α : Type _} (m : List (String × α)) (k : String) (v : α) : List (String × α) :=
  match m with
  | [] => [(k, v)]
  | p :: t => if p.1 == k then (k, v) :: t else p :: upsert t k v

/-- One datacenter section of `ovirt.ini`: the section name and its
key/value options (`ConfigParser` stores file values as strings). -/
structure DCSection where
  name : String
  options : List (String × String)
deriving DecidableEq

/-- The default IP regex pattern string from `OVirtInventory.__init__`. -/
def defaultIpRegexStr : String := "^(\\d+).(\\d+).(\\d+).(\\d+)$"

/-- The `defaults` dictionary handed to `SafeConfigParser` in
`OVirtInventory.__init__`.  `ovirt_nic_name` defaults to Python `None`,
which `ConfigParser.get` returns unchanged; the inner `Option` is the
string-or-`None` value. -/
def iniDefaults : List (String × Option String) :=
  [(OVIRT_IP_REGEX, some defaultIpRegexStr),
   (OVIRT_NIC_NAME, none),
   (OVIRT_TAG_CONTROL, some "mi-control"),
   (OVIRT_TAG_WORKER, some "mi-worker")]

/-- `ConfigParser` option resolution: a key set in the section shadows the
constructor defaults.  The outer `Option` is definedness (`none` models a
`NoOptionError` on access), the inner `Option` is the Python value
(`none` models the value `None`). -/
def configGet (sec : DCSection) (key : String) : Option (Option String) :=
  match lookup' sec.options key with
  | some v => some (some v)
  | none => lookup' iniDefaults key

/-- `ConfigParser.has_option`: true when the key resolves in the section or
in the defaults. -/
def hasOption (sec : DCSection) (key : String) : Bool :=
  (configGet sec key).isSome

/-- `ConfigParser.get` as the script calls it: raises `NoOptionError` when
the key resolves nowhere. -/
def configGetE (sec : DCSection) (key : String) : Except PyError (Option String) :=
  match configGet sec key with
  | some v => Except.ok v
  | none => Except.error PyError.noOptionError

/-- Python truthiness of a `ConfigParser` value: `bool(None)` is `False`,
`bool(s)` for a string is `s != ''`. -/
def pyTruthy : Option String → Bool
  | none => false
  | some s => !s.isEmpty

/-- The keyword arguments `OVirtInventory.api` passes to the external
`ovirtsdk.api.API` constructor.  `ca_file` is present exactly when the
section has `ovirt_ca`; `insecure` is present exactly when the section has
`ovirt_api_insecure`, and holds `bool(value)`. -/
structure ApiKwargs where
  password : Option String
  url : Option String
  username : Option String
  ca_file : Option (Option String)
  insecure : Option Bool
deriving DecidableEq

/-- `OVirtInventory.api`, up to the external constructor call: compute the
keyword arguments, propagating a `NoOptionError` for a missing mandatory
key exactly as the Python `config.get` calls do. -/
def apiKwargs (sec : DCSection) : Except PyError ApiKwargs := do
  let password ← configGetE sec OVIRT_PASSWORD
  let url ← configGetE sec OVIRT_URL
  let username ← configGetE sec OVIRT_USERNAME
  pure { password := password
         url := url
         username := username
         ca_file := configGet sec OVIRT_CA
         insecure := (configGet sec OVIRT_API_INSECURE).map pyTruthy }

/-- One step of the IP-collecting loop of `OVirtInventory.ip`: append the
address strings of every reported device of the NIC, in listed order;
dereferencing an absent NIC (`None`) is an `AttributeError`. -/
def collectIpsStep (acc : List String) (onic : Option Nic) : Except PyError (List String) :=
  match onic with
  | some nic =>
      Except.ok (acc ++ nic.reported_devices.flatMap (fun d => d.ips.map (fun i => i.address)))
  | none => Except.error PyError.attributeError

/-- `OVirtInventory.ip`, translated line by line.  `reSem` gives the
semantics of the external `re` module (pattern string to match outcome).
When `ovirt_nic_name` is set, the candidate list is the singleton holding
the result of the external by-name lookup, which is `none` when no
interface is called `nic_<name>`; iterating over that singleton then
dereferences `None` (`nic.get_reported_devices()`), an `AttributeError`. -/
def ipOf (reSem : String → String → Bool) (sec : DCSection) (vm : VM) :
    Except PyError (Option String) := do
  let nic_name ← configGetE sec OVIRT_NIC_NAME
  let ip_regex ← configGetE sec OVIRT_IP_REGEX
  let pattern := reSem (match ip_regex with | none => "" | some r => r)
  let nics : List (Option Nic) :=
    match nic_name with
    | some n => [vm.nics.find? (fun nic => nic.name == "nic_" ++ n)]
    | none => vm.nics.map some
  let ips ← nics.foldlM collectIpsStep []
  pure (ips.find? pattern)

/-- The effective datacenter name used in the query: the `ovirt_dc`
override when the section configures one, the section name otherwise
(`ovirt_dc` has no constructor default, so it resolves only from the
section). -/
def resolvedDC (sec : DCSection) : String :=
  match configGet sec OVIRT_DC with
  | some (some v) => v
  | _ => sec.name

/-- The query expression `OVirtInventory.hosts` builds: a `datacenter=`
clause, an optional `tag=` clause, joined with `' and '`. -/
def queryOf (sec : DCSection) (tag : Option String) : String :=
  let conditions := ["datacenter=" ++ resolvedDC sec]
  let conditions :=
    match tag with
    | some t => conditions ++ ["tag=" ++ t]
    | none => conditions
  String.intercalate " and " conditions

/-- The external API: a function from section name and query expression to
the VM records the oVirt endpoint returns, or an API failure. -/
abbrev ApiFun := String → String → Except ApiError (List VM)

/-- The body of the VM loop of `OVirtInventory.hosts`: handle a VM only if
it is `"up"`, and append its IP only if one can be extracted. -/
def hostStep (reSem : String → String → Bool) (sec : DCSection) (acc : List String)
    (vm : VM) : Except PyError (List String) :=
  if vm.status.state == "up" then do
    let oip ← ipOf reSem sec vm
    match oip with
    | some a => pure (acc ++ [a])
    | none => pure acc
  else pure acc

/-- `OVirtInventory.hosts`: build the query, construct the API client
(surfacing configuration errors), list the VMs, keep the `"up"` ones whose
IP resolves, in order. -/
def hosts (reSem : String → String → Bool) (api : ApiFun) (sec : DCSection)
    (tag : Option String) : Except PyError (List String) := do
  let _ ← apiKwargs sec
  let vms ← (api sec.name (queryOf sec tag)).mapError PyError.apiError
  vms.foldlM (hostStep reSem sec) []

/-- A Python value stored in a vars mapping: a string or an integer. -/
inductive PyVal where
  | s (v : String)
  | i (v : Int)
deriving DecidableEq

/-- Python `str` on a `ConfigParser` value. -/
def pyStr : Option String → String
  | none => "None"
  | some v => v

/-- Digits to a number, for `pyInt`. -/
def digitsToNat (cs : List Char) : Nat :=
  cs.foldl (fun acc c => acc * 10 + (c.toNat - 48)) 0

/-- Python `int` on a `ConfigParser` value: `int(None)` is a `TypeError`;
on a string, strip whitespace, allow one sign, then require nonempty
digits, else `ValueError`. -/
def pyInt : Option String → Except PyError Int
  | none => Except.error PyError.typeError
  | some v =>
      let cs := v.trim.toList
      let signed : Int × List Char :=
        match cs with
        | '-' :: rest => (-1, rest)
        | '+' :: rest => (1, rest)
        | _ => (1, cs)
      if !signed.2.isEmpty && signed.2.all Char.isDigit then
        Except.ok (signed.1 * Int.ofNat (digitsToNat signed.2))
      else
        Except.error PyError.valueError

/-- `OVirtInventory._DC_OPT_VARS`: the optional per-datacenter variables and
their coercion functions (`str` or `int`), in source order. -/
def DC_OPT_VARS : List (String × (Option String → Except PyError PyVal)) :=
  [(ANSIBLE_SSH_USER, fun v => Except.ok (PyVal.s (pyStr v))),
   (ANSIBLE_SSH_PK, fun v => Except.ok (PyVal.s (pyStr v))),
   (ANSIBLE_SSH_PORT, fun v => (pyInt v).map PyVal.i),
   (ANSIBLE_SSH_PASS, fun v => Except.ok (PyVal.s (pyStr v)))]

/-- The `vars` mapping of a datacenter group: the present optional keys,
coerced, plus `dc: <section name>`. -/
def dcVars (sec : DCSection) : Except PyError (List (String × PyVal)) := do
  let base ← DC_OPT_VARS.foldlM (fun acc cfg =>
      if hasOption sec cfg.1 then do
        let v ← configGetE sec cfg.1
        let pv ← cfg.2 v
        pure (acc ++ [(cfg.1, pv)])
      else pure acc) []
  pure (upsert base "dc" (PyVal.s sec.name))

/-- The host variables mapping stored in `_meta.hostvars`. -/
abbrev HostVars := List (String × String)

/-- One group value of the inventory dictionary: a host list and, when the
Python dict carried a `'vars'` key, a vars mapping (`none` models the
absence of the `'vars'` key). -/
structure GroupEntry where
  hosts : List String
  vars : Option (List (String × PyVal))
deriving DecidableEq

/-- A top-level value of the inventory dictionary: a group dict, or the
`_meta` dict holding `hostvars`. -/
inductive Entry where
  | group (g : GroupEntry)
  | meta (hostvars : List (String × HostVars))
deriving DecidableEq

/-- The inventory document: the top-level Python dict. -/
abbrev Doc := List (String × Entry)

/-- The `consul_dc` host variable: the configured override when present,
the section name otherwise. -/
def consulDC (sec : DCSection) : String :=
  match configGet sec CONSUL_DC with
  | some (some v) => v
  | _ => sec.name

/-- `OVirtInventory._ROLES` as an ordered list of role name and tag key.
Python iterates an (unordered) dict here; this embedding fixes the source
textual order, and no statement below depends on the order of the two
roles beyond it being some fixed order. -/
def ROLES : List (String × String) :=
  [("control", OVIRT_TAG_CONTROL), ("worker", OVIRT_TAG_WORKER)]

/-- The hostvars dict built for one datacenter/role combination. -/
def hvFor (sec : DCSection) (role : String × String) : HostVars :=
  [("role", role.1), ("dc", sec.name), ("consul_dc", consulDC sec)]

/-- `data[k]['hosts'].extend(hs)`: a `KeyError` when `data[k]` is absent or
is a dict without a `'hosts'` key (the `_meta` dict). -/
def extendHosts (data : Doc) (k : String) (hs : List String) : Except PyError Doc :=
  match lookup' data k with
  | some (Entry.group g) =>
      Except.ok (upsert data k (Entry.group { g with hosts := g.hosts ++ hs }))
  | some (Entry.meta _) => Except.error PyError.keyError
  | none => Except.error PyError.keyError

/-- `data['_meta']['hostvars'][h] = hv`: a `KeyError` when `data['_meta']`
is absent or holds no `'hostvars'` key. -/
def setHostvar (data : Doc) (h : String) (hv : HostVars) : Except PyError Doc :=
  match lookup' data "_meta" with
  | some (Entry.meta m) => Except.ok (upsert data "_meta" (Entry.meta (upsert m h hv)))
  | some (Entry.group _) => Except.error PyError.keyError
  | none => Except.error PyError.keyError

/-- The `for host in hosts` loop writing `_meta.hostvars`. -/
def setHostvarsAll (data : Doc) (hs : List String) (hv : HostVars) : Except PyError Doc :=
  hs.foldlM (fun d h => setHostvar d h hv) data

/-- The body of the role loop in `OVirtInventory.inventory`: create the
role group if absent, fetch the hosts, extend both host lists, write the
hostvars. -/
def processRole (reSem : String → String → Bool) (api : ApiFun) (sec : DCSection)
    (data : Doc) (role : String × String) : Except PyError Doc := do
  let group := "role=" ++ role.1
  let tag ← configGetE sec role.2
  let data := if (lookup' data group).isSome then data
              else upsert data group (Entry.group ⟨[], none⟩)
  let hv := hvFor sec role
  let hs ← hosts reSem api sec tag
  let data ← extendHosts data group hs
  let data ← extendHosts data sec.name hs
  setHostvarsAll data hs hv

/-- The body of the datacenter loop in `OVirtInventory.inventory`:
overwrite the datacenter group with empty hosts and the configured vars,
then run the role loop. -/
def processDC (reSem : String → String → Bool) (api : ApiFun) (data : Doc)
    (sec : DCSection) : Except PyError Doc := do
  let vars ← dcVars sec
  let data := upsert data sec.name (Entry.group ⟨[], some vars⟩)
  ROLES.foldlM (processRole reSem api sec) data

/-- `OVirtInventory.inventory`: start from `{'_meta': {'hostvars': {}}}`
and fold the datacenter sections in configuration order. -/
def inventory (reSem : String → String → Bool) (api : ApiFun) (cfg : List DCSection) :
    Except PyError Doc :=
  cfg.foldlM (processDC reSem api) [("_meta", Entry.meta [])]

/-- Match `\d+` then continue with `p`: at least one digit is consumed and
every consumed character is a digit; all split points are tried. -/
def digitsThen (p : List Char → Bool) : List Char → Bool
  | [] => false
  | c :: cs => c.isDigit && (p cs || digitsThen p cs)

/-- Match an (unescaped) `.`: any single character except a newline, then
continue with `p`. -/
def dotThen (p : List Char → Bool) : List Char → Bool
  | [] => false
  | c :: cs => (c != '\n') && p cs

/-- Match `$`: the end of the subject, or the position just before a single
trailing newline (Python `re` semantics). -/
def dollarEnd : List Char → Bool
  | [] => true
  | ['\n'] => true
  | _ => false

/-- Modelled from the external `re` module: whether
`re.compile('^(\d+).(\d+).(\d+).(\d+)$').match(s)` succeeds.  `^` anchors
at position 0 (where `match` starts anyway), each `(\d+)` is one or more
digits, each unescaped `.` is any character but a newline, and `$` matches
at the end or just before a trailing newline. -/
def defaultIpMatch (s : String) : Bool :=
  digitsThen (dotThen (digitsThen (dotThen (digitsThen (dotThen (digitsThen dollarEnd)))))) s.toList

/-- Modelled from the external `re` module, for the two pattern strings a
default configuration makes the script compile: the empty pattern (whose
`match` succeeds at position 0 of every string) and the default IP
pattern.  Pattern strings outside this model map to a matcher that never
succeeds. -/
def reSemModel (p : String) (s : String) : Bool :=
  if p = "" then true
  else if p = defaultIpRegexStr then defaultIpMatch s
  else false

/-- Modelled from the external `re` module: `re.match` with a pattern whose
(anchor-free) full-match language is `L` succeeds on `s` exactly when some
prefix of `s` starting at position 0 — not necessarily all of `s` — lies
in `L`. -/
def pyReMatch (L : List Char → Bool) (s : String) : Bool :=
  (List.range (s.length + 1)).any (fun k => L (s.toList.take k))

/-- The host list of a top-level group, when that key holds a group dict
with a `'hosts'` key. -/
def docHosts (doc : Doc) (k : String) : Option (List String) :=
  match lookup' doc k with
  | some (Entry.group g) => some g.hosts
  | _ => none

/-- The `_meta.hostvars` mapping of a document, when present. -/
def metaHostvars (doc : Doc) : Option (List (String × HostVars)) :=
  match lookup' doc "_meta" with
  | some (Entry.meta m) => some m
  | _ => none

/-- The hostvars entry of one host. -/
def metaLookup (doc : Doc) (h : String) : Option HostVars :=
  (metaHostvars doc).bind (fun m => lookup' m h)

/-- The one-datacenter configuration of the single-VM scenario: section
`dc1` with only the mandatory connection options, everything else at its
default. -/
def sec1 : DCSection :=
  ⟨"dc1", [(OVIRT_URL, "https://ovirt.example.com/api"),
           (OVIRT_USERNAME, "admin@internal"),
           (OVIRT_PASSWORD, "secret")]⟩

/-- The single VM of the scenario: state `"up"`, one NIC with one reported
device with the single IP `10.0.0.5`. -/
def vm1 : VM := ⟨⟨"up"⟩, [⟨"nic1", [⟨[⟨"10.0.0.5"⟩]⟩]⟩]⟩

/-- The API of the scenario: exactly one VM, returned for the control-tag
query; every other query returns nothing. -/
def api1 : ApiFun := fun _dc query =>
  if query = "datacenter=dc1 and tag=mi-control" then Except.ok [vm1] else Except.ok []

/-- A VM whose single reported IP string is `10a0b0c5`. -/
def vm10a : VM := ⟨⟨"up"⟩, [⟨"nic1", [⟨[⟨"10a0b0c5"⟩]⟩]⟩]⟩

/-- A section configuring the NIC filter `ovirt_nic_name = eth0`. -/
def sec2 : DCSection :=
  ⟨"dc2", [(OVIRT_URL, "https://ovirt.example.com/api"),
           (OVIRT_USERNAME, "admin@internal"),
           (OVIRT_PASSWORD, "secret"),
           (OVIRT_NIC_NAME, "eth0")]⟩

/-- An `"up"` VM with one NIC, but none named `nic_eth0`. -/
def vm2 : VM := ⟨⟨"up"⟩, [⟨"nic_eth1", [⟨[⟨"10.0.0.7"⟩]⟩]⟩]⟩

/-- An API returning `vm2` for every query. -/
def api2 : ApiFun := fun _dc _query => Except.ok [vm2]

/-- Spec-side description of the candidate NIC set of §4.3: the singleton
interface named `nic_<filter>` when the filter is set (`none` when it is
absent), every interface otherwise. -/
def candidateNicsSpec (sec : DCSection) (vm : VM) : Option (List Nic) :=
  match Option.join (configGet sec OVIRT_NIC_NAME) with
  | some f => (vm.nics.find? (fun nic => nic.name == "nic_" ++ f)).map (fun nic => [nic])
  | none => some vm.nics

/-- Spec-side description of the collected IP strings: NICs in listed
order, each NIC's reported devices in listed order, each device's IP
strings in listed order. -/
def collectedIpsSpec (ns : List Nic) : List String :=
  ns.flatMap (fun nic => nic.reported_devices.flatMap (fun d => d.ips.map (fun i => i.address)))

/-- The pattern string the resolver compiles for a section: the configured
`ovirt_ip_regex` (defaulted), with Python `None` mapped to `''`. -/
def patternStrOf (sec : DCSection) : String :=
  match Option.join (configGet sec OVIRT_IP_REGEX) with
  | some r => r
  | none => ""

/-- A section configuring the NIC filter `ovirt_nic_name = bond0`. -/
def sec4 : DCSection :=
  ⟨"dc4", [(OVIRT_URL, "https://ovirt.example.com/api"),
           (OVIRT_USERNAME, "admin@internal"),
           (OVIRT_PASSWORD, "secret"),
           (OVIRT_NIC_NAME, "bond0")]⟩

/-- An `"up"` VM with no NICs at all. -/
def vm4 : VM := ⟨⟨"up"⟩, []⟩

/-- The pattern language of the C4 witness: exactly the string `42`. -/
def langW : List Char → Bool := fun cs => cs == ['4', '2']

/-- A VM whose reported IPs are, in order, `x42`, `421z`, `42`. -/
def vmW : VM :=
  ⟨⟨"up"⟩, [⟨"nicA", [⟨[⟨"x42"⟩, ⟨"421z"⟩]⟩]⟩, ⟨"nicB", [⟨[⟨"42"⟩]⟩]⟩]⟩

/-- An API agreeing with `api1` on the control-tag query for `dc1` and
failing on every other query. -/
def api1alt : ApiFun := fun _dc query =>
  if query = "datacenter=dc1 and tag=mi-control" then Except.ok [vm1]
  else Except.error (ApiError.query "unexpected query")

/-- A section configuring `ovirt_api_insecure = false` (the string). -/
def sec9 : DCSection :=
  ⟨"dc9", [(OVIRT_URL, "https://ovirt.example.com/api"),
           (OVIRT_USERNAME, "admin@internal"),
           (OVIRT_PASSWORD, "secret"),
           (OVIRT_API_INSECURE, "false")]⟩

/-- The keyword arguments built for `sec9`. -/
def kw9 : ApiKwargs :=
  ⟨some "secret", some "https://ovirt.example.com/api", some "admin@internal", none, some true⟩

/-- An API behaving like `api`, except that every VM record whose status
state is not exactly `"up"` is deleted from every response. -/
def apiFilterUp (api : ApiFun) : ApiFun := fun dc query =>
  (api dc query).map (fun vms => vms.filter (fun vm => vm.status.state == "up"))

/-- An API whose every query fails with a connection error. -/
def apiDown : ApiFun := fun _dc _query => Except.error (ApiError.connection "refused")

/-- Keys of an association list are distinct. -/
def keysNodup {α : Type _} (m : List (String × α)) : Prop :=
  (m.map Prod.fst).Nodup

/-- Fold a sequence of hostvars writes into the `_meta.hostvars` dict. -/
def applyWrites (m : List (String × HostVars)) (ws : List (String × HostVars)) :
    List (String × HostVars) :=
  ws.foldl (fun a w => upsert a w.1 w.2) m

/-- The value of the last write to `h` in a write sequence. -/
def lastWrite (ws : List (String × HostVars)) (h : String) : Option HostVars :=
  (ws.reverse.find? (fun w => w.1 == h)).map Prod.snd

/-- The host list one datacenter/role combination contributes: the result
of `hosts` for the role's configured tag (empty when that call fails; a
failing call aborts `inventory`, so this convention never matters for a
returned document). -/
def comboHosts (reSem : String → String → Bool) (api : ApiFun) (sec : DCSection)
    (role : String × String) : List String :=
  ((hosts reSem api sec (Option.join (configGet sec role.2))).toOption).getD []

/-- The hostvars writes one datacenter/role combination performs. -/
def comboWrites (reSem : String → String → Bool) (api : ApiFun) (sec : DCSection)
    (role : String × String) : List (String × HostVars) :=
  (comboHosts reSem api sec role).map (fun h => (h, hvFor sec role))

/-- All datacenter/role combinations, in processing order. -/
def combos (cfg : List DCSection) : List (DCSection × (String × String)) :=
  cfg.flatMap (fun sec => ROLES.map (fun r => (sec, r)))

/-- The full hostvars write sequence of a run, in processing order. -/
def writesOf (reSem : String → String → Bool) (api : ApiFun) (cfg : List DCSection) :
    List (String × HostVars) :=
  (combos cfg).flatMap (fun c => comboWrites reSem api c.1 c.2)

/-- The role group names. -/
def roleKeys : List String := ROLES.map (fun r => "role=" ++ r.1)

/-- The hostvars of the last datacenter/role combination (in processing
order) whose host list contains `h`, if any. -/
def lastComboVars (reSem : String → String → Bool) (api : ApiFun) (cfg : List DCSection)
    (h : String) : Option HostVars :=
  ((combos cfg).reverse.find? (fun c => (comboHosts reSem api c.1 c.2).contains h)).map
    (fun c => hvFor c.1 c.2)

/-- Classification of the non-`_meta` entries of the document under
construction: every binding other than `_meta` is a group; its hosts all
come from the write sequence (whose keys are `wsKeys`); its vars mapping is
present exactly when the key is a processed section name; and a group that
is not a section is a role group without vars. -/
def ClsProp (wsKeys : List String) (names : List String) (data : Doc) : Prop :=
  ∀ k e, lookup' data k = some e →
    k = "_meta" ∨ ∃ g, e = Entry.group g ∧
      (∀ h ∈ g.hosts, h ∈ wsKeys) ∧
      (k ∈ names → g.vars.isSome = true) ∧
      (k ∉ names → g.vars = none ∧ k ∈ roleKeys)

/-- The invariant maintained by the inventory builder, where `ws` is the
hostvars write sequence of the processed combination prefix and `names`
the processed section names: the `_meta` key holds the hostvars dict
obtained by folding `ws`, processed section names are bound, and the other
bindings are classified by `ClsProp`. -/
structure InvSt (ws : List (String × HostVars)) (names : List String) (data : Doc) : Prop where
  meta_eq : lookup' data "_meta" = some (Entry.meta (applyWrites [] ws))
  names_present : ∀ n ∈ names, (lookup' data n).isSome = true
  cls : ClsProp (ws.map Prod.fst) names data

/-- A datacenter section named `_meta` — a legal section name the
configuration file format permits. -/
def secMeta : DCSection :=
  ⟨"_meta", [(OVIRT_URL, "https://ovirt.example.com/api"),
             (OVIRT_USERNAME, "admin@internal"),
             (OVIRT_PASSWORD, "secret")]⟩

/-- The document `inventory` returns for the single-VM `dc1` scenario. -/
def doc1 : Doc :=
  [("_meta", Entry.meta
      [("10.0.0.5", [("role", "control"), ("dc", "dc1"), ("consul_dc", "dc1")])]),
   ("dc1", Entry.group ⟨["10.0.0.5"], some [("dc", PyVal.s "dc1")]⟩),
   ("role=control", Entry.group ⟨["10.0.0.5"], none⟩),
   ("role=worker", Entry.group ⟨[], none⟩)]

/-! ## Theorems -/

/-- Bind on a success, for rewriting. -/
@[simp] theorem except_bind_ok {ε α β : Type _} (a : α) (f : α → Except ε β) :
    (Except.ok a >>= f : Except ε β) = f a := rfl

/-- Bind on a failure, for rewriting. -/
@[simp] theorem except_bind_err {ε α β : Type _} (e : ε) (f : α → Except ε β) :
    (Except.error e >>= f : Except ε β) = Except.error e := rfl

/-- `pure` on `Except`, for rewriting. -/
@[simp] theorem except_pure_eq {ε α : Type _} (a : α) :
    (pure a : Except ε α) = Except.ok a := rfl

/-- **C1**: for the configuration with the single datacenter section `dc1`
(default tags, default IP regex, no NIC filter) and an API returning one
`"up"` VM with the single IP `10.0.0.5`, `inventory` succeeds and the
document has `data["dc1"]["hosts"] = ["10.0.0.5"]`,
`data["role=control"]["hosts"] = ["10.0.0.5"]`, and
`data["_meta"]["hostvars"]["10.0.0.5"] =
{role: control, dc: dc1, consul_dc: dc1}`. -/
theorem c1_single_vm_inventory :
    (inventory reSemModel api1 [sec1]).toOption.isSome = true ∧
    (inventory reSemModel api1 [sec1]).toOption.bind (fun d => docHosts d "dc1")
      = some ["10.0.0.5"] ∧
    (inventory reSemModel api1 [sec1]).toOption.bind (fun d => docHosts d "role=control")
      = some ["10.0.0.5"] ∧
    (inventory reSemModel api1 [sec1]).toOption.bind (fun d => metaLookup d "10.0.0.5")
      = some [("role", "control"), ("dc", "dc1"), ("consul_dc", "dc1")] := by
  decide

/-- **C10**: the default IP pattern leaves its separator dots unescaped, so
it matches `10a0b0c5`, a string containing no dot at all; and under a
default-configured datacenter section, IP resolution returns that string
as the host address. -/
theorem c10_default_regex_dots_unescaped :
    defaultIpMatch "10a0b0c5" = true ∧
    reSemModel defaultIpRegexStr "10a0b0c5" = true ∧
    ("10a0b0c5".toList.contains '.') = false ∧
    ipOf reSemModel sec1 vm10a = Except.ok (some "10a0b0c5") := by
  decide

/-- **C2**: evaluating the code at the failing input.  With the NIC filter
set to `eth0` and no interface named `nic_eth0`, the by-name lookup yields
`None` and the loop body dereferences it: IP resolution raises an
`AttributeError` instead of yielding no address, and the whole inventory
build aborts with that error instead of silently excluding the VM. -/
theorem c2_nic_filter_missing_interface_raises :
    ipOf reSemModel sec2 vm2 = Except.error PyError.attributeError ∧
    inventory reSemModel api2 [sec2] = Except.error PyError.attributeError := by
  decide

/-- `ovirt_nic_name` always resolves (it is in the constructor defaults),
to the section value when set and to Python `None` otherwise. -/
theorem configGetE_nic (sec : DCSection) :
    configGetE sec OVIRT_NIC_NAME = Except.ok (Option.join (configGet sec OVIRT_NIC_NAME)) := by
  unfold configGetE configGet
  cases h : lookup' sec.options OVIRT_NIC_NAME <;> simp [h] <;> rfl

/-- `ovirt_ip_regex` always resolves (it is in the constructor defaults),
and never to Python `None`. -/
theorem configGetE_regex (sec : DCSection) :
    configGetE sec OVIRT_IP_REGEX = Except.ok (some (patternStrOf sec)) := by
  unfold configGetE configGet patternStrOf
  cases h : lookup' sec.options OVIRT_IP_REGEX <;> simp [configGet, h] <;> rfl

/-- Folding the collecting step over present NICs collects every address
in enumeration order. -/
theorem foldlM_collectIpsStep (l : List Nic) (acc : List String) :
    (l.map some).foldlM collectIpsStep acc = Except.ok (acc ++ collectedIpsSpec l) := by
  induction l generalizing acc with
  | nil =>
      show Except.ok acc = Except.ok (acc ++ [])
      rw [List.append_nil]
  | cons n t ih =>
      have h1 : ((n :: t).map some).foldlM collectIpsStep acc
          = (t.map some).foldlM collectIpsStep
              (acc ++ n.reported_devices.flatMap (fun d => d.ips.map (fun i => i.address))) := rfl
      rw [h1, ih]
      show _ = Except.ok (acc ++ (_ ++ collectedIpsSpec t))
      rw [List.append_assoc]

/-- `ipOf` in closed form: collect over the candidate NIC list and search
with the configured matcher. -/
theorem ipOf_eq (reSem : String → String → Bool) (sec : DCSection) (vm : VM) :
    ipOf reSem sec vm
      = ((match Option.join (configGet sec OVIRT_NIC_NAME) with
          | some n => ([vm.nics.find? (fun nic => nic.name == "nic_" ++ n)] : List (Option Nic))
          | none => vm.nics.map some).foldlM collectIpsStep []
          >>= fun ips => Except.ok (ips.find? (reSem (patternStrOf sec)))) := by
  unfold ipOf configGetE patternStrOf configGet
  cases h1 : lookup' sec.options OVIRT_NIC_NAME <;>
    cases h2 : lookup' sec.options OVIRT_IP_REGEX <;> rfl

/-- **C4** (amended): whenever the candidate NIC set is determined without
error — no NIC filter, or the named interface exists — IP resolution
returns the first collected IP string (NICs, devices and IPs each in
listed order) accepted by the configured matcher, and `none` when no
collected IP is accepted; and the modelled `re.match` semantics accepts a
string exactly when some prefix from the start of the string — not
necessarily the full string — lies in the pattern's language. -/
theorem c4_first_match_in_order :
    (∀ (reSem : String → String → Bool) (sec : DCSection) (vm : VM) (ns : List Nic),
        candidateNicsSpec sec vm = some ns →
        ipOf reSem sec vm
          = Except.ok ((collectedIpsSpec ns).find? (reSem (patternStrOf sec)))) ∧
    (∀ (L : List Char → Bool) (s : String),
        pyReMatch L s = true ↔ ∃ k, k ≤ s.length ∧ L (s.toList.take k) = true) := by
  constructor
  · intro reSem sec vm ns hns
    rw [ipOf_eq]
    cases hn : Option.join (configGet sec OVIRT_NIC_NAME) with
    | none =>
        have hns' : candidateNicsSpec sec vm = some vm.nics := by
          unfold candidateNicsSpec; rw [hn]
        rw [hns'] at hns
        cases hns
        show (vm.nics.map some).foldlM collectIpsStep []
            >>= (fun ips => Except.ok (ips.find? (reSem (patternStrOf sec))))
          = Except.ok ((collectedIpsSpec vm.nics).find? (reSem (patternStrOf sec)))
        rw [foldlM_collectIpsStep]
        rfl
    | some f =>
        cases hf : vm.nics.find? (fun nic => nic.name == "nic_" ++ f) with
        | none =>
            have hns' : candidateNicsSpec sec vm = none := by
              unfold candidateNicsSpec
              rw [hn]
              show Option.map (fun nic => ([nic] : List Nic))
                  (vm.nics.find? (fun nic => nic.name == "nic_" ++ f)) = none
              rw [hf]
              rfl
            rw [hns'] at hns
            cases hns
        | some nic =>
            have hns' : candidateNicsSpec sec vm = some [nic] := by
              unfold candidateNicsSpec
              rw [hn]
              show Option.map (fun nic => ([nic] : List Nic))
                  (vm.nics.find? (fun nic => nic.name == "nic_" ++ f)) = some [nic]
              rw [hf]
              rfl
            rw [hns'] at hns
            cases hns
            show ([vm.nics.find? (fun nic => nic.name == "nic_" ++ f)] : List (Option Nic)).foldlM
                collectIpsStep [] >>= (fun ips => Except.ok (ips.find? (reSem (patternStrOf sec))))
              = Except.ok ((collectedIpsSpec [nic]).find? (reSem (patternStrOf sec)))
            rw [hf]
            have hsingle : ([some nic] : List (Option Nic)).foldlM collectIpsStep []
                = Except.ok (collectedIpsSpec [nic]) := by
              have h0 : (([nic] : List Nic).map some) = ([some nic] : List (Option Nic)) := rfl
              rw [← h0, foldlM_collectIpsStep]
              rfl
            rw [hsingle]
            rfl
  · intro L s
    unfold pyReMatch
    simp [List.any_eq_true, Nat.lt_succ_iff]

/-- **C4** (counterexample to the claim as stated): with the NIC filter
set to `bond0` and no interface named `nic_bond0`, no IP is collected,
yet resolution does not return `none` — it raises an `AttributeError`. -/
theorem c4_counterexample :
    ipOf reSemModel sec4 vm4 ≠ Except.ok none ∧
    ipOf reSemModel sec4 vm4 = Except.error PyError.attributeError := by
  decide

/-- Witness for C4: under the prefix matcher of the language `{42}`, the
resolver skips `x42` (no prefix in the language), and returns `421z` — a
prefix match, not a full-string match — ahead of the exact `42`. -/
theorem c4_witness :
    ipOf (fun _p => pyReMatch langW) sec1 vmW = Except.ok (some "421z") :=
  (c4_first_match_in_order.1 (fun _p => pyReMatch langW) sec1 vmW vmW.nics (by decide)).trans
    (by decide)

/-- `resolvedDC` is the `ovirt_dc` section option when set, the section
name otherwise. -/
theorem resolvedDC_eq (sec : DCSection) :
    resolvedDC sec = (lookup' sec.options OVIRT_DC).getD sec.name := by
  unfold resolvedDC configGet
  cases h : lookup' sec.options OVIRT_DC <;> simp [h] <;> rfl

/-- **C6**: the query expression is `datacenter=<resolved>` with no tag and
`datacenter=<resolved> and tag=<tagname>` with a tag, the clauses joined by
the literal `" and "`; the resolved name is the `ovirt_dc` override when
that option is configured and the section name otherwise; and `hosts`
consults the API only at that query expression. -/
theorem c6_query_expression :
    (∀ (sec : DCSection) (t : String),
        queryOf sec (some t)
          = "datacenter=" ++ (lookup' sec.options OVIRT_DC).getD sec.name ++ " and "
              ++ ("tag=" ++ t)) ∧
    (∀ sec : DCSection,
        queryOf sec none = "datacenter=" ++ (lookup' sec.options OVIRT_DC).getD sec.name) ∧
    (∀ (reSem : String → String → Bool) (api api' : ApiFun) (sec : DCSection)
        (tag : Option String),
        api sec.name (queryOf sec tag) = api' sec.name (queryOf sec tag) →
        hosts reSem api sec tag = hosts reSem api' sec tag) := by
  refine ⟨fun sec t => ?_, fun sec => ?_, fun reSem api api' sec tag h => ?_⟩
  · unfold queryOf
    rw [resolvedDC_eq]
    rfl
  · unfold queryOf
    rw [resolvedDC_eq]
    rfl
  · unfold hosts
    simp only [h]

/-- Witness for C6: the concrete query string for `dc1` with the default
control tag, and the fact that `hosts` cannot distinguish two APIs that
agree on that one query. -/
theorem c6_witness :
    queryOf sec1 (some "mi-control") = "datacenter=dc1 and tag=mi-control" ∧
    hosts reSemModel api1 sec1 (some "mi-control")
      = hosts reSemModel api1alt sec1 (some "mi-control") :=
  ⟨(c6_query_expression.1 sec1 "mi-control").trans (by decide),
   c6_query_expression.2.2 reSemModel api1 api1alt sec1 (some "mi-control") (by decide)⟩

/-- Inverting a successful `apiKwargs`: the `insecure` keyword is the
Python truthiness of the configured `ovirt_api_insecure` value, and is
absent when the option is absent. -/
theorem apiKwargs_insecure (sec : DCSection) (kw : ApiKwargs)
    (h : apiKwargs sec = Except.ok kw) :
    kw.insecure = (configGet sec OVIRT_API_INSECURE).map pyTruthy := by
  obtain ⟨pw, url, un, ca, ins⟩ := kw
  unfold apiKwargs configGetE at h
  cases h1 : configGet sec OVIRT_PASSWORD <;> rw [h1] at h
  case none => simp at h
  case some =>
    cases h2 : configGet sec OVIRT_URL <;> rw [h2] at h
    case none => simp at h
    case some =>
      cases h3 : configGet sec OVIRT_USERNAME <;> rw [h3] at h
      case none => simp at h
      case some =>
        simp only [except_bind_ok, except_pure_eq, Except.ok.injEq, ApiKwargs.mk.injEq] at h
        exact h.2.2.2.2.symm

/-- **C9**: when a section configures `ovirt_api_insecure` and the API
keyword arguments are built successfully, `insecure` is `True` for every
non-empty configured string — `"false"`, `"no"` and `"0"` included — and
`False` exactly when the configured string is empty. -/
theorem c9_insecure_truthiness (sec : DCSection) (kw : ApiKwargs) (v : String)
    (hok : apiKwargs sec = Except.ok kw)
    (hv : lookup' sec.options OVIRT_API_INSECURE = some v) :
    (v ≠ "" → kw.insecure = some true) ∧ (v = "" → kw.insecure = some false) := by
  have hins := apiKwargs_insecure sec kw hok
  rw [configGet, hv] at hins
  simp [pyTruthy] at hins
  constructor
  · intro hne
    rw [hins]
    have : v.isEmpty = false := by
      cases he : v.isEmpty
      · rfl
      · exact absurd ((String.isEmpty_iff v).mp he) hne
    rw [this]
    rfl
  · intro he
    subst he
    rw [hins]
    rfl

/-- Witness for C9: the configured string `"false"` is non-empty, so the
API client is constructed with `insecure = True`. -/
theorem c9_witness : ("false" : String) ≠ "" ∧ kw9.insecure = some true :=
  ⟨by decide, (c9_insecure_truthiness sec9 kw9 "false" (by decide) (by decide)).1 (by decide)⟩

/-- Deleting the non-`"up"` VMs from the list leaves the VM fold of
`hosts` unchanged: the loop body is the identity on them. -/
theorem foldlM_hostStep_filter (reSem : String → String → Bool) (sec : DCSection)
    (vms : List VM) (acc : List String) :
    (vms.filter (fun vm => vm.status.state == "up")).foldlM (hostStep reSem sec) acc
      = vms.foldlM (hostStep reSem sec) acc := by
  induction vms generalizing acc with
  | nil => rfl
  | cons v t ih =>
      cases hup : v.status.state == "up" with
      | false =>
          rw [List.filter_cons_of_neg (by rw [hup]; exact Bool.false_ne_true)]
          have hskip : hostStep reSem sec acc v = Except.ok acc := by
            unfold hostStep; rw [hup]; rfl
          have hrhs : (v :: t).foldlM (hostStep reSem sec) acc
              = t.foldlM (hostStep reSem sec) acc := by
            show hostStep reSem sec acc v >>= (fun b => t.foldlM (hostStep reSem sec) b)
              = t.foldlM (hostStep reSem sec) acc
            rw [hskip, except_bind_ok]
          rw [hrhs, ih]
      | true =>
          rw [List.filter_cons_of_pos (by rw [hup])]
          show hostStep reSem sec acc v
              >>= (fun b => (t.filter (fun vm => vm.status.state == "up")).foldlM
                    (hostStep reSem sec) b)
            = hostStep reSem sec acc v >>= (fun b => t.foldlM (hostStep reSem sec) b)
          cases hx : hostStep reSem sec acc v with
          | error e => rfl
          | ok b => rw [except_bind_ok, except_bind_ok, ih]

/-- `hosts` cannot tell the filtered API from the original. -/
theorem hosts_filter_up (reSem : String → String → Bool) (api : ApiFun) (sec : DCSection)
    (tag : Option String) :
    hosts reSem (apiFilterUp api) sec tag = hosts reSem api sec tag := by
  unfold hosts apiFilterUp
  cases hk : apiKwargs sec with
  | error e => rfl
  | ok kw =>
      show (Except.map (fun vms => vms.filter (fun vm => vm.status.state == "up"))
              (api sec.name (queryOf sec tag))).mapError PyError.apiError
            >>= (fun vms => vms.foldlM (hostStep reSem sec) [])
        = (api sec.name (queryOf sec tag)).mapError PyError.apiError
            >>= (fun vms => vms.foldlM (hostStep reSem sec) [])
      cases hq : api sec.name (queryOf sec tag) with
      | error e => rfl
      | ok vms =>
          show (Except.ok (vms.filter (fun vm => vm.status.state == "up"))
                  : Except PyError (List VM))
              >>= (fun vms => vms.foldlM (hostStep reSem sec) [])
            = (Except.ok vms : Except PyError (List VM))
              >>= (fun vms => vms.foldlM (hostStep reSem sec) [])
          rw [except_bind_ok, except_bind_ok, foldlM_hostStep_filter]

/-- The role loop body cannot tell the filtered API from the original. -/
theorem processRole_filter_up (reSem : String → String → Bool) (api : ApiFun)
    (sec : DCSection) (data : Doc) (role : String × String) :
    processRole reSem (apiFilterUp api) sec data role = processRole reSem api sec data role := by
  unfold processRole
  simp only [hosts_filter_up]

/-- The datacenter loop body cannot tell the filtered API from the
original. -/
theorem processDC_filter_up (reSem : String → String → Bool) (api : ApiFun)
    (data : Doc) (sec : DCSection) :
    processDC reSem (apiFilterUp api) data sec = processDC reSem api data sec := by
  unfold processDC
  have h : processRole reSem (apiFilterUp api) sec = processRole reSem api sec := by
    funext d r
    exact processRole_filter_up reSem api sec d r
  rw [h]

/-- **C8**: a VM whose status state is not exactly `"up"` never contributes
to the inventory, silently: deleting every non-`"up"` VM record from every
API response leaves the entire result of `inventory` unchanged — the same
document (so the same host lists and hostvars) on success and the same
error on failure, for every configuration, API behaviour and regex
semantics. -/
theorem c8_non_up_vms_never_contribute (reSem : String → String → Bool) (api : ApiFun)
    (cfg : List DCSection) :
    inventory reSem (apiFilterUp api) cfg = inventory reSem api cfg := by
  unfold inventory
  have h : processDC reSem (apiFilterUp api) = processDC reSem api := by
    funext d sec
    exact processDC_filter_up reSem api d sec
  rw [h]

/-- If the fold function fails on some list element no matter the
accumulator, the whole monadic fold fails. -/
theorem foldlM_error_mem {α β ε : Type _} (f : β → α → Except ε β) (l : List α) (x : α)
    (hx : x ∈ l) (hf : ∀ b, ∃ e, f b x = Except.error e) :
    ∀ b, ∃ e, l.foldlM f b = Except.error e := by
  induction l with
  | nil => cases hx
  | cons a t ih =>
      intro b
      cases hx with
      | head =>
          obtain ⟨e, he⟩ := hf b
          refine ⟨e, ?_⟩
          show f b x >>= (fun b' => t.foldlM f b') = Except.error e
          rw [he, except_bind_err]
      | tail _ hmem =>
          cases ha : f b a with
          | error e =>
              refine ⟨e, ?_⟩
              show f b a >>= (fun b' => t.foldlM f b') = Except.error e
              rw [ha, except_bind_err]
          | ok b' =>
              obtain ⟨e, he⟩ := ih hmem b'
              refine ⟨e, ?_⟩
              show f b a >>= (fun b'' => t.foldlM f b'') = Except.error e
              rw [ha, except_bind_ok, he]

/-- A key with a constructor default always resolves, to the section value
when set and to the default otherwise. -/
theorem configGetE_defaulted (sec : DCSection) (key : String)
    (hk : (lookup' iniDefaults key).isSome = true) :
    configGetE sec key = Except.ok (Option.join (configGet sec key)) := by
  unfold configGetE configGet
  cases h : lookup' sec.options key with
  | some v => rfl
  | none =>
      cases hd : lookup' iniDefaults key with
      | some w => rfl
      | none => rw [hd] at hk; cases hk

/-- The tag keys of both roles are in the constructor defaults. -/
theorem role_key_defaulted (role : String × String) (hrole : role ∈ ROLES) :
    (lookup' iniDefaults role.2).isSome = true := by
  cases hrole with
  | head => decide
  | tail _ h =>
      cases h with
      | head => decide
      | tail _ h2 => cases h2

/-- If the API fails on the query `hosts` sends, `hosts` fails. -/
theorem hosts_api_error (reSem : String → String → Bool) (api : ApiFun) (sec : DCSection)
    (tag : Option String) (e : ApiError)
    (herr : api sec.name (queryOf sec tag) = Except.error e) :
    ∃ e', hosts reSem api sec tag = Except.error e' := by
  unfold hosts
  cases hk : apiKwargs sec with
  | error e2 => exact ⟨e2, rfl⟩
  | ok kw =>
      refine ⟨PyError.apiError e, ?_⟩
      show (api sec.name (queryOf sec tag)).mapError PyError.apiError
            >>= (fun vms => vms.foldlM (hostStep reSem sec) [])
        = Except.error (PyError.apiError e)
      rw [herr]
      rfl

/-- If `hosts` fails for the tag of a role, the role loop body fails no
matter the document state. -/
theorem processRole_error (reSem : String → String → Bool) (api : ApiFun) (sec : DCSection)
    (role : String × String) (hrole : role ∈ ROLES)
    (herr : ∃ eh, hosts reSem api sec (Option.join (configGet sec role.2)) = Except.error eh) :
    ∀ data : Doc, ∃ e', processRole reSem api sec data role = Except.error e' := by
  intro data
  obtain ⟨eh, heh⟩ := herr
  unfold processRole
  rw [configGetE_defaulted sec role.2 (role_key_defaulted role hrole)]
  simp only [except_bind_ok]
  rw [heh]
  exact ⟨eh, rfl⟩

/-- If some role's loop body fails no matter the document state, the
datacenter loop body fails no matter the document state. -/
theorem processDC_error (reSem : String → String → Bool) (api : ApiFun) (sec : DCSection)
    (role : String × String) (hrole : role ∈ ROLES)
    (hpr : ∀ data : Doc, ∃ e', processRole reSem api sec data role = Except.error e') :
    ∀ data : Doc, ∃ e', processDC reSem api data sec = Except.error e' := by
  intro data
  unfold processDC
  cases hv : dcVars sec with
  | error e => exact ⟨e, rfl⟩
  | ok vars =>
      simp only [except_bind_ok]
      exact foldlM_error_mem (processRole reSem api sec) ROLES role hrole hpr _

/-- **C5**: if the API fails (connection or query error) on the query built
for any configured datacenter section and role, `inventory` returns no
document at all — it propagates an error, for every configuration and
regex semantics.  There is no partial result: the success value of
`inventory` is the only document it can produce, and under this hypothesis
it produces none. -/
theorem c5_api_error_aborts (reSem : String → String → Bool) (api : ApiFun)
    (cfg : List DCSection) (sec : DCSection) (role : String × String) (e : ApiError)
    (hsec : sec ∈ cfg) (hrole : role ∈ ROLES)
    (herr : api sec.name (queryOf sec (Option.join (configGet sec role.2)))
      = Except.error e) :
    ∃ e', inventory reSem api cfg = Except.error e' := by
  unfold inventory
  exact foldlM_error_mem (processDC reSem api) cfg sec hsec
    (processDC_error reSem api sec role hrole
      (processRole_error reSem api sec role hrole
        (hosts_api_error reSem api sec _ e herr)))
    _

/-- Witness for C5: with the failing API, the inventory build for the
`dc1` configuration aborts with an error. -/
theorem c5_witness : ∃ e', inventory reSemModel apiDown [sec1] = Except.error e' :=
  c5_api_error_aborts reSemModel apiDown [sec1] sec1 ("control", OVIRT_TAG_CONTROL)
    (ApiError.connection "refused") (by decide) (by decide) (by decide)

theorem upsert_nil {α : Type _} (k : String) (v : α) : upsert [] k v = [(k, v)] := rfl

theorem upsert_cons {α : Type _} (p : String × α) (t : List (String × α)) (k : String) (v : α) :
    upsert (p :: t) k v = if p.1 == k then (k, v) :: t else p :: upsert t k v := rfl

theorem lookup'_nil {α : Type _} (k : String) : lookup' ([] : List (String × α)) k = none := rfl

theorem lookup'_cons {α : Type _} (p : String × α) (t : List (String × α)) (k : String) :
    lookup' (p :: t) k = if p.1 == k then some p.2 else lookup' t k := by
  unfold lookup'
  cases hp : (p.1 == k) with
  | true => simp [List.find?_cons, hp]
  | false => simp [List.find?_cons, hp]

theorem lookup'_upsert_self {α : Type _} (m : List (String × α)) (k : String) (v : α) :
    lookup' (upsert m k v) k = some v := by
  induction m with
  | nil =>
      rw [upsert_nil, lookup'_cons]
      simp
  | cons p t ih =>
      rw [upsert_cons]
      by_cases hp : (p.1 == k) = true
      · rw [if_pos hp, lookup'_cons]
        simp
      · rw [if_neg hp, lookup'_cons, if_neg hp]
        exact ih

theorem lookup'_upsert_ne {α : Type _} (m : List (String × α)) (k k' : String) (v : α)
    (hne : k' ≠ k) :
    lookup' (upsert m k v) k' = lookup' m k' := by
  have hbk : (k == k') = false := by
    simp only [beq_eq_false_iff_ne]
    exact fun h => hne h.symm
  induction m with
  | nil =>
      rw [upsert_nil, lookup'_cons, lookup'_nil, hbk]
      rfl
  | cons p t ih =>
      rw [upsert_cons]
      by_cases hp : (p.1 == k) = true
      · have hpk : p.1 = k := eq_of_beq hp
        rw [if_pos hp, lookup'_cons, lookup'_cons, hpk, hbk]
        rfl
      · rw [if_neg hp, lookup'_cons, lookup'_cons, ih]

theorem lookup'_upsert_isSome {α : Type _} (m : List (String × α)) (k k' : String) (v : α)
    (h : (lookup' m k').isSome = true) :
    (lookup' (upsert m k v) k').isSome = true := by
  by_cases he : k' = k
  · subst he; rw [lookup'_upsert_self]; rfl
  · rw [lookup'_upsert_ne m k k' v he]; exact h

theorem mem_keys_upsert {α : Type _} (m : List (String × α)) (k : String) (v : α) (x : String)
    (hx : x ∈ (upsert m k v).map Prod.fst) : x = k ∨ x ∈ m.map Prod.fst := by
  induction m with
  | nil =>
      rw [upsert_nil, List.map_cons, List.map_nil] at hx
      rcases List.mem_cons.mp hx with h | h
      · exact Or.inl h
      · cases h
  | cons p t ih =>
      rw [upsert_cons] at hx
      by_cases hp : (p.1 == k) = true
      · rw [if_pos hp, List.map_cons] at hx
        rcases List.mem_cons.mp hx with h | h
        · exact Or.inl h
        · exact Or.inr (List.mem_cons_of_mem _ h)
      · rw [if_neg hp, List.map_cons] at hx
        rcases List.mem_cons.mp hx with h | h
        · rw [List.map_cons]
          exact Or.inr (h ▸ List.mem_cons_self _ _)
        · rcases ih h with h2 | h2
          · exact Or.inl h2
          · rw [List.map_cons]
            exact Or.inr (List.mem_cons_of_mem _ h2)

theorem keysNodup_upsert {α : Type _} (m : List (String × α)) (k : String) (v : α)
    (h : keysNodup m) : keysNodup (upsert m k v) := by
  induction m with
  | nil =>
      rw [upsert_nil, keysNodup]
      simp
  | cons p t ih =>
      rw [keysNodup, List.map_cons, List.nodup_cons] at h
      rw [upsert_cons]
      by_cases hp : (p.1 == k) = true
      · rw [if_pos hp, keysNodup, List.map_cons, List.nodup_cons]
        exact ⟨(eq_of_beq hp) ▸ h.1, h.2⟩
      · rw [if_neg hp, keysNodup, List.map_cons, List.nodup_cons]
        refine ⟨fun hmem => ?_, ih h.2⟩
        rcases mem_keys_upsert t k v p.1 hmem with h2 | h2
        · exact hp (h2 ▸ beq_self_eq_true k)
        · exact h.1 h2

theorem countP_keys_eq_one {α : Type _} (m : List (String × α)) (k : String) (v : α)
    (h : keysNodup m) (hl : lookup' m k = some v) :
    m.countP (fun p => p.1 == k) = 1 := by
  induction m with
  | nil => cases hl
  | cons p t ih =>
      rw [keysNodup, List.map_cons, List.nodup_cons] at h
      rw [lookup'_cons] at hl
      rw [List.countP_cons]
      by_cases hp : (p.1 == k) = true
      · rw [if_pos hp, List.countP_eq_zero.mpr, Nat.zero_add]
        intro q hq hqk
        exact h.1 ((eq_of_beq hp) ▸ (eq_of_beq hqk) ▸ List.mem_map_of_mem Prod.fst hq)
      · rw [if_neg hp] at hl
        rw [if_neg hp, Nat.add_zero]
        exact ih h.2 hl

theorem applyWrites_nil (m : List (String × HostVars)) : applyWrites m [] = m := rfl

theorem applyWrites_cons (m : List (String × HostVars)) (w : String × HostVars)
    (ws : List (String × HostVars)) :
    applyWrites m (w :: ws) = applyWrites (upsert m w.1 w.2) ws := rfl

theorem applyWrites_append (m : List (String × HostVars)) (ws1 ws2 : List (String × HostVars)) :
    applyWrites m (ws1 ++ ws2) = applyWrites (applyWrites m ws1) ws2 := by
  unfold applyWrites
  rw [List.foldl_append]

theorem keysNodup_applyWrites (ws : List (String × HostVars)) (m : List (String × HostVars))
    (h : keysNodup m) : keysNodup (applyWrites m ws) := by
  induction ws generalizing m with
  | nil => exact h
  | cons w t ih =>
      rw [applyWrites_cons]
      exact ih _ (keysNodup_upsert _ _ _ h)

theorem find?_append' {α : Type _} (p : α → Bool) (l1 l2 : List α) :
    (l1 ++ l2).find? p
      = match l1.find? p with
        | some x => some x
        | none => l2.find? p := by
  induction l1 with
  | nil => rfl
  | cons a t ih =>
      cases hp : p a with
      | true => simp [List.find?_cons, hp]
      | false => simp [List.find?_cons, hp, ih]

theorem find?_singleton {α : Type _} (p : α → Bool) (a : α) :
    ([a].find? p) = if p a then some a else none := by
  cases hp : p a with
  | true => simp [List.find?_cons, hp]
  | false => simp [List.find?_cons, hp]

theorem lastWrite_nil (h : String) : lastWrite [] h = none := rfl

theorem lastWrite_append (ws1 ws2 : List (String × HostVars)) (h : String) :
    lastWrite (ws1 ++ ws2) h
      = match lastWrite ws2 h with
        | some v => some v
        | none => lastWrite ws1 h := by
  unfold lastWrite
  rw [List.reverse_append, find?_append']
  cases hf : ws2.reverse.find? (fun w => w.1 == h) with
  | some w => rfl
  | none => rfl

theorem lastWrite_cons (w : String × HostVars) (ws : List (String × HostVars)) (h : String) :
    lastWrite (w :: ws) h
      = match lastWrite ws h with
        | some v => some v
        | none => if w.1 == h then some w.2 else none := by
  have h1 : w :: ws = [w] ++ ws := rfl
  rw [h1, lastWrite_append]
  cases lastWrite ws h with
  | some v => rfl
  | none =>
      show lastWrite [w] h = _
      unfold lastWrite
      cases hw : (w.1 == h) with
      | true => simp [List.find?_cons, hw]
      | false => simp [List.find?_cons, hw]

theorem lastWrite_isSome_of_mem (ws : List (String × HostVars)) (h : String)
    (hmem : h ∈ ws.map Prod.fst) : (lastWrite ws h).isSome = true := by
  induction ws with
  | nil => cases hmem
  | cons w t ih =>
      rw [lastWrite_cons]
      rw [List.map_cons] at hmem
      cases hl : lastWrite t h with
      | some v => rfl
      | none =>
          rcases List.mem_cons.mp hmem with h2 | h2
          · rw [if_pos (h2 ▸ beq_self_eq_true w.1)]
            rfl
          · have := ih h2
            rw [hl] at this
            cases this

theorem lastWrite_map_const (hs : List String) (hv : HostVars) (h : String) :
    lastWrite (hs.map (fun x => (x, hv))) h = if hs.contains h then some hv else none := by
  induction hs with
  | nil => rfl
  | cons a t ih =>
      rw [List.map_cons, lastWrite_cons, ih, List.contains_cons]
      cases hm : t.contains h with
      | true => simp
      | false =>
          cases hab : (a == h) with
          | true =>
              have hba : (h == a) = true := by rw [eq_of_beq hab]; exact beq_self_eq_true h
              simp [hba]
          | false =>
              have hba : (h == a) = false := by
                simp only [beq_eq_false_iff_ne] at hab ⊢
                exact fun he => hab he.symm
              simp [hba]

theorem lookup'_applyWrites (ws : List (String × HostVars)) (m : List (String × HostVars))
    (h : String) :
    lookup' (applyWrites m ws) h
      = match lastWrite ws h with
        | some v => some v
        | none => lookup' m h := by
  induction ws generalizing m with
  | nil => rfl
  | cons w t ih =>
      rw [applyWrites_cons, ih, lastWrite_cons]
      cases hl : lastWrite t h with
      | some v => rfl
      | none =>
          cases hw : (w.1 == h) with
          | true =>
              have he : h = w.1 := (eq_of_beq hw).symm
              subst he
              rw [lookup'_upsert_self]
              rfl
          | false =>
              rw [lookup'_upsert_ne m w.1 h w.2
                    (fun he => by rw [he, beq_self_eq_true] at hw; cases hw)]
              rfl

theorem lastWrite_flatMap_combos (reSem : String → String → Bool) (api : ApiFun)
    (cs : List (DCSection × (String × String))) (h : String) :
    lastWrite (cs.flatMap (fun c => comboWrites reSem api c.1 c.2)) h
      = (cs.reverse.find? (fun c => (comboHosts reSem api c.1 c.2).contains h)).map
          (fun c => hvFor c.1 c.2) := by
  induction cs with
  | nil => rfl
  | cons c t ih =>
      have hfm : (c :: t).flatMap (fun c => comboWrites reSem api c.1 c.2)
          = comboWrites reSem api c.1 c.2
            ++ t.flatMap (fun c => comboWrites reSem api c.1 c.2) := rfl
      rw [hfm, lastWrite_append, ih, List.reverse_cons, find?_append']
      cases hf : t.reverse.find? (fun c => (comboHosts reSem api c.1 c.2).contains h) with
      | some c' => rfl
      | none =>
          show lastWrite (comboWrites reSem api c.1 c.2) h = _
          rw [comboWrites, lastWrite_map_const, find?_singleton]
          cases hc : (comboHosts reSem api c.1 c.2).contains h with
          | true => rfl
          | false => rfl

theorem lastWrite_writesOf (reSem : String → String → Bool) (api : ApiFun)
    (cfg : List DCSection) (h : String) :
    lastWrite (writesOf reSem api cfg) h = lastComboVars reSem api cfg h := by
  rw [writesOf, lastComboVars, lastWrite_flatMap_combos]

theorem clsProp_mono (W W' : List String) (names : List String) (data : Doc)
    (hsub : ∀ x ∈ W, x ∈ W') (h : ClsProp W names data) : ClsProp W' names data := by
  intro k e hk
  rcases h k e hk with h1 | ⟨g, hg, hH, hv1, hv2⟩
  · exact Or.inl h1
  · exact Or.inr ⟨g, hg, fun x hx => hsub x (hH x hx), hv1, hv2⟩

theorem clsProp_upsert_group (W : List String) (names : List String) (data : Doc)
    (k : String) (g : GroupEntry) (h : ClsProp W names data)
    (hH : ∀ x ∈ g.hosts, x ∈ W)
    (hv1 : k ∈ names → g.vars.isSome = true)
    (hv2 : k ∉ names → g.vars = none ∧ k ∈ roleKeys) :
    ClsProp W names (upsert data k (Entry.group g)) := by
  intro k' e hk'
  by_cases he : k' = k
  · subst he
    rw [lookup'_upsert_self] at hk'
    injection hk' with h2
    exact Or.inr ⟨g, h2.symm, hH, hv1, hv2⟩
  · rw [lookup'_upsert_ne _ _ _ _ he] at hk'
    exact h k' e hk'

theorem clsProp_of_lookup_eq (W : List String) (names : List String) (d d' : Doc)
    (heq : ∀ k, k ≠ "_meta" → lookup' d' k = lookup' d k) (h : ClsProp W names d) :
    ClsProp W names d' := by
  intro k e hk
  by_cases hkm : k = "_meta"
  · exact Or.inl hkm
  · rw [heq k hkm] at hk
    exact h k e hk

theorem extendHosts_ok (data : Doc) (k : String) (hs : List String) (d' : Doc)
    (h : extendHosts data k hs = Except.ok d') :
    ∃ g, lookup' data k = some (Entry.group g)
      ∧ d' = upsert data k (Entry.group ⟨g.hosts ++ hs, g.vars⟩) := by
  unfold extendHosts at h
  cases hl : lookup' data k with
  | none => rw [hl] at h; exact Except.noConfusion h
  | some e =>
      cases e with
      | group g =>
          rw [hl] at h
          injection h with h2
          exact ⟨g, rfl, h2.symm⟩
      | meta m => rw [hl] at h; exact Except.noConfusion h

theorem setHostvar_ok (data : Doc) (h0 : String) (hv : HostVars) (d' : Doc)
    (m : List (String × HostVars))
    (hmeta : lookup' data "_meta" = some (Entry.meta m))
    (h : setHostvar data h0 hv = Except.ok d') :
    d' = upsert data "_meta" (Entry.meta (upsert m h0 hv)) := by
  unfold setHostvar at h
  rw [hmeta] at h
  injection h with h2
  exact h2.symm

theorem setHostvarsAll_lookup (hs : List String) :
    ∀ (data d' : Doc) (hv : HostVars) (m : List (String × HostVars)),
      lookup' data "_meta" = some (Entry.meta m) →
      setHostvarsAll data hs hv = Except.ok d' →
      lookup' d' "_meta"
          = some (Entry.meta (applyWrites m (hs.map (fun x => (x, hv)))))
        ∧ ∀ k, k ≠ "_meta" → lookup' d' k = lookup' data k := by
  induction hs with
  | nil =>
      intro data d' hv m hmeta hok
      have hd : d' = data := by
        injection hok with h2
        exact h2.symm
      subst hd
      constructor
      · rw [List.map_nil, applyWrites_nil]
        exact hmeta
      · intro k _
        rfl
  | cons a t ih =>
      intro data d' hv m hmeta hok
      have hstep : setHostvarsAll data (a :: t) hv
          = setHostvar data a hv >>= (fun d1 => setHostvarsAll d1 t hv) := rfl
      rw [hstep] at hok
      cases h1 : setHostvar data a hv with
      | error e =>
          rw [h1, except_bind_err] at hok
          exact Except.noConfusion hok
      | ok d1 =>
          rw [h1, except_bind_ok] at hok
          have hd1 : d1 = upsert data "_meta" (Entry.meta (upsert m a hv)) :=
            setHostvar_ok data a hv d1 m hmeta h1
          subst hd1
          obtain ⟨hm2, hrest⟩ := ih _ d' hv (upsert m a hv) (lookup'_upsert_self _ _ _) hok
          constructor
          · rw [List.map_cons, applyWrites_cons]
            exact hm2
          · intro k hk
            rw [hrest k hk, lookup'_upsert_ne _ _ _ _ hk]

theorem roleKey_mem (role : String × String) (hrole : role ∈ ROLES) :
    ("role=" ++ role.1) ∈ roleKeys :=
  List.mem_map_of_mem (fun r => "role=" ++ r.1) hrole

theorem roleKey_ne_meta (role : String × String) (hrole : role ∈ ROLES) :
    ("role=" ++ role.1) ≠ "_meta" := by
  cases hrole with
  | head => decide
  | tail _ h =>
      cases h with
      | head => decide
      | tail _ h2 => cases h2

theorem invSt_processRole_core (reSem : String → String → Bool) (api : ApiFun)
    (sec : DCSection) (role : String × String) (hrole : role ∈ ROLES)
    (hname : sec.name ≠ "_meta") (ws : List (String × HostVars)) (names : List String)
    (hs : List String) (d₁ data' : Doc) (hInv₁ : InvSt ws names d₁)
    (hch : comboHosts reSem api sec role = hs)
    (hok : (extendHosts d₁ ("role=" ++ role.1) hs >>= fun d2 =>
        extendHosts d2 sec.name hs >>= fun d3 =>
        setHostvarsAll d3 hs (hvFor sec role)) = Except.ok data') :
    InvSt (ws ++ comboWrites reSem api sec role) names data' := by
  cases hE1 : extendHosts d₁ ("role=" ++ role.1) hs with
  | error e => rw [hE1, except_bind_err] at hok; exact Except.noConfusion hok
  | ok d2 =>
      rw [hE1, except_bind_ok] at hok
      cases hE2 : extendHosts d2 sec.name hs with
      | error e => rw [hE2, except_bind_err] at hok; exact Except.noConfusion hok
      | ok d3 =>
          rw [hE2, except_bind_ok] at hok
          obtain ⟨g1, hg1, hd2⟩ := extendHosts_ok _ _ _ _ hE1
          obtain ⟨g2, hg2, hd3⟩ := extendHosts_ok _ _ _ _ hE2
          have hm1 : lookup' d2 "_meta" = some (Entry.meta (applyWrites [] ws)) := by
            rw [hd2, lookup'_upsert_ne _ _ _ _ (fun he => roleKey_ne_meta role hrole he.symm)]
            exact hInv₁.meta_eq
          have hm2 : lookup' d3 "_meta" = some (Entry.meta (applyWrites [] ws)) := by
            rw [hd3, lookup'_upsert_ne _ _ _ _ (fun he => hname he.symm)]
            exact hm1
          obtain ⟨hmf, hrest⟩ := setHostvarsAll_lookup hs d3 data' (hvFor sec role) _ hm2 hok
          have hcw : comboWrites reSem api sec role
              = hs.map (fun x => (x, hvFor sec role)) := by
            rw [comboWrites, hch]
          have hmeta' : lookup' data' "_meta"
              = some (Entry.meta (applyWrites [] (ws ++ comboWrites reSem api sec role))) := by
            rw [hmf, applyWrites_append, hcw]
          have hWsub : ∀ x ∈ ws.map Prod.fst,
              x ∈ (ws ++ comboWrites reSem api sec role).map Prod.fst := by
            intro x hx
            rw [List.map_append]
            exact List.mem_append_left _ hx
          have hHs : ∀ x ∈ hs, x ∈ (ws ++ comboWrites reSem api sec role).map Prod.fst := by
            intro x hx
            rw [List.map_append]
            refine List.mem_append_right _ ?_
            rw [hcw, List.map_map]
            simpa using hx
          have hcls₁ : ClsProp ((ws ++ comboWrites reSem api sec role).map Prod.fst) names d₁ :=
            clsProp_mono _ _ _ _ hWsub hInv₁.cls
          have hcls₂ : ClsProp ((ws ++ comboWrites reSem api sec role).map Prod.fst) names d2 := by
            rw [hd2]
            rcases hcls₁ ("role=" ++ role.1) _ hg1 with h1 | ⟨g1', hge, hH, hv1, hv2⟩
            · exact absurd h1 (roleKey_ne_meta role hrole)
            · injection hge with h2
              subst h2
              refine clsProp_upsert_group _ _ _ _ _ hcls₁ ?_ hv1 hv2
              intro x hx
              rcases List.mem_append.mp hx with h3 | h3
              · exact hH x h3
              · exact hHs x h3
          have hcls₃ : ClsProp ((ws ++ comboWrites reSem api sec role).map Prod.fst) names d3 := by
            rw [hd3]
            rcases hcls₂ sec.name _ hg2 with h1 | ⟨g2', hge, hH, hv1, hv2⟩
            · exact absurd h1 hname
            · injection hge with h2
              subst h2
              refine clsProp_upsert_group _ _ _ _ _ hcls₂ ?_ hv1 hv2
              intro x hx
              rcases List.mem_append.mp hx with h3 | h3
              · exact hH x h3
              · exact hHs x h3
          have hcls' : ClsProp ((ws ++ comboWrites reSem api sec role).map Prod.fst) names data' :=
            clsProp_of_lookup_eq _ _ _ _ hrest hcls₃
          refine ⟨hmeta', ?_, hcls'⟩
          intro n hn
          by_cases hnm : n = "_meta"
          · subst hnm
            rw [hmeta']
            rfl
          · rw [hrest n hnm, hd3]
            refine lookup'_upsert_isSome _ _ _ _ ?_
            rw [hd2]
            exact lookup'_upsert_isSome _ _ _ _ (hInv₁.names_present n hn)

theorem invSt_processRole (reSem : String → String → Bool) (api : ApiFun) (sec : DCSection)
    (role : String × String) (hrole : role ∈ ROLES) (hname : sec.name ≠ "_meta")
    (ws : List (String × HostVars)) (names : List String) (data data' : Doc)
    (hInv : InvSt ws names data)
    (hok : processRole reSem api sec data role = Except.ok data') :
    InvSt (ws ++ comboWrites reSem api sec role) names data' := by
  unfold processRole at hok
  rw [configGetE_defaulted sec role.2 (role_key_defaulted role hrole)] at hok
  simp only [except_bind_ok] at hok
  cases hhs : hosts reSem api sec (Option.join (configGet sec role.2)) with
  | error e =>
      rw [hhs, except_bind_err] at hok
      exact Except.noConfusion hok
  | ok hs =>
      rw [hhs] at hok
      simp only [except_bind_ok] at hok
      have hch : comboHosts reSem api sec role = hs := by
        rw [comboHosts, hhs]
        rfl
      by_cases hg : (lookup' data ("role=" ++ role.1)).isSome = true
      · rw [if_pos hg] at hok
        exact invSt_processRole_core reSem api sec role hrole hname ws names hs data data'
          hInv hch hok
      · rw [if_neg hg] at hok
        have hgn : ("role=" ++ role.1) ∉ names := fun hmem => hg (hInv.names_present _ hmem)
        have hInvU : InvSt ws names (upsert data ("role=" ++ role.1) (Entry.group ⟨[], none⟩)) := by
          refine ⟨?_, ?_, ?_⟩
          · rw [lookup'_upsert_ne _ _ _ _ (fun he => roleKey_ne_meta role hrole he.symm)]
            exact hInv.meta_eq
          · intro n hn
            exact lookup'_upsert_isSome _ _ _ _ (hInv.names_present n hn)
          · refine clsProp_upsert_group _ _ _ _ _ hInv.cls ?_ ?_ ?_
            · intro x hx
              exact absurd hx (List.not_mem_nil x)
            · intro hmem
              exact absurd hmem hgn
            · intro _
              exact ⟨rfl, roleKey_mem role hrole⟩
        exact invSt_processRole_core reSem api sec role hrole hname ws names hs _ data'
          hInvU hch hok

theorem foldlM_nil' {α β ε : Type _} (f : β → α → Except ε β) (b : β) :
    ([] : List α).foldlM f b = Except.ok b := rfl

theorem foldlM_cons' {α β ε : Type _} (f : β → α → Except ε β) (b : β) (a : α) (l : List α) :
    (a :: l).foldlM f b = f b a >>= fun b' => l.foldlM f b' := rfl

theorem invSt_upsert_sec (ws : List (String × HostVars)) (names : List String) (data : Doc)
    (sec : DCSection) (vars : List (String × PyVal)) (hname : sec.name ≠ "_meta")
    (hInv : InvSt ws names data) :
    InvSt ws (names ++ [sec.name]) (upsert data sec.name (Entry.group ⟨[], some vars⟩)) := by
  refine ⟨?_, ?_, ?_⟩
  · rw [lookup'_upsert_ne _ _ _ _ (fun he => hname he.symm)]
    exact hInv.meta_eq
  · intro n hn
    rcases List.mem_append.mp hn with h1 | h1
    · exact lookup'_upsert_isSome _ _ _ _ (hInv.names_present n h1)
    · have h2 : n = sec.name := List.mem_singleton.mp h1
      subst h2
      rw [lookup'_upsert_self]
      rfl
  · intro k e hk
    by_cases he : k = sec.name
    · subst he
      rw [lookup'_upsert_self] at hk
      injection hk with h2
      refine Or.inr ⟨⟨[], some vars⟩, h2.symm, ?_, ?_, ?_⟩
      · intro x hx
        exact absurd hx (List.not_mem_nil x)
      · intro _
        rfl
      · intro hmem
        exact absurd (List.mem_append_right names (List.mem_singleton.mpr rfl)) hmem
    · rw [lookup'_upsert_ne _ _ _ _ he] at hk
      rcases hInv.cls k e hk with h1 | ⟨g, hg, hH, hv1, hv2⟩
      · exact Or.inl h1
      · refine Or.inr ⟨g, hg, hH, ?_, ?_⟩
        · intro hmem
          rcases List.mem_append.mp hmem with h2 | h2
          · exact hv1 h2
          · exact absurd (List.mem_singleton.mp h2) he
        · intro hmem
          exact hv2 (fun h2 => hmem (List.mem_append_left _ h2))

theorem invSt_foldRoles (reSem : String → String → Bool) (api : ApiFun) (sec : DCSection)
    (hname : sec.name ≠ "_meta") :
    ∀ (rs : List (String × String)), (∀ r ∈ rs, r ∈ ROLES) →
    ∀ (ws : List (String × HostVars)) (names : List String) (data data' : Doc),
      InvSt ws names data →
      rs.foldlM (processRole reSem api sec) data = Except.ok data' →
      InvSt (ws ++ rs.flatMap (fun r => comboWrites reSem api sec r)) names data' := by
  intro rs
  induction rs with
  | nil =>
      intro _ ws names data data' hInv hok
      rw [foldlM_nil'] at hok
      injection hok with h2
      rw [show ([] : List (String × String)).flatMap
            (fun r => comboWrites reSem api sec r) = [] from rfl,
          List.append_nil]
      exact h2 ▸ hInv
  | cons r rt ih =>
      intro hrs ws names data data' hInv hok
      rw [foldlM_cons'] at hok
      cases hp : processRole reSem api sec data r with
      | error e => rw [hp, except_bind_err] at hok; exact Except.noConfusion hok
      | ok d1 =>
          rw [hp, except_bind_ok] at hok
          have h1 := invSt_processRole reSem api sec r (hrs r (List.mem_cons_self r rt)) hname
            ws names data d1 hInv hp
          have h2 := ih (fun r' hr' => hrs r' (List.mem_cons_of_mem r hr')) _ names d1 data'
            h1 hok
          have h3 : (r :: rt).flatMap (fun r => comboWrites reSem api sec r)
              = comboWrites reSem api sec r
                ++ rt.flatMap (fun r => comboWrites reSem api sec r) := rfl
          rw [h3, ← List.append_assoc]
          exact h2

theorem invSt_processDC (reSem : String → String → Bool) (api : ApiFun) (sec : DCSection)
    (hname : sec.name ≠ "_meta") (ws : List (String × HostVars)) (names : List String)
    (data data' : Doc) (hInv : InvSt ws names data)
    (hok : processDC reSem api data sec = Except.ok data') :
    InvSt (ws ++ ROLES.flatMap (fun r => comboWrites reSem api sec r))
      (names ++ [sec.name]) data' := by
  unfold processDC at hok
  cases hv : dcVars sec with
  | error e => rw [hv, except_bind_err] at hok; exact Except.noConfusion hok
  | ok vars =>
      rw [hv] at hok
      simp only [except_bind_ok] at hok
      exact invSt_foldRoles reSem api sec hname ROLES (fun r hr => hr) ws
        (names ++ [sec.name]) _ data' (invSt_upsert_sec ws names data sec vars hname hInv) hok

theorem writesOf_cons (reSem : String → String → Bool) (api : ApiFun) (sec : DCSection)
    (cfg : List DCSection) :
    writesOf reSem api (sec :: cfg)
      = ROLES.flatMap (fun r => comboWrites reSem api sec r) ++ writesOf reSem api cfg := by
  rw [writesOf, writesOf]
  have h1 : combos (sec :: cfg) = (ROLES.map (fun r => (sec, r))) ++ combos cfg := rfl
  rw [h1, List.flatMap_append]
  rfl

theorem invSt_foldDCs (reSem : String → String → Bool) (api : ApiFun) :
    ∀ (cfg : List DCSection), (∀ sec ∈ cfg, sec.name ≠ "_meta") →
    ∀ (ws : List (String × HostVars)) (names : List String) (data data' : Doc),
      InvSt ws names data →
      cfg.foldlM (processDC reSem api) data = Except.ok data' →
      InvSt (ws ++ writesOf reSem api cfg) (names ++ cfg.map DCSection.name) data' := by
  intro cfg
  induction cfg with
  | nil =>
      intro _ ws names data data' hInv hok
      rw [foldlM_nil'] at hok
      injection hok with h2
      rw [show writesOf reSem api [] = [] from rfl, List.append_nil,
          show ([] : List DCSection).map DCSection.name = [] from rfl, List.append_nil]
      exact h2 ▸ hInv
  | cons sec cfgt ih =>
      intro hcfg ws names data data' hInv hok
      rw [foldlM_cons'] at hok
      cases hp : processDC reSem api data sec with
      | error e => rw [hp, except_bind_err] at hok; exact Except.noConfusion hok
      | ok d1 =>
          rw [hp, except_bind_ok] at hok
          have h1 := invSt_processDC reSem api sec (hcfg sec (List.mem_cons_self sec cfgt))
            ws names data d1 hInv hp
          have h2 := ih (fun s hs => hcfg s (List.mem_cons_of_mem sec hs)) _ _ d1 data' h1 hok
          rw [writesOf_cons, ← List.append_assoc]
          have h4 : (sec :: cfgt).map DCSection.name = [sec.name] ++ cfgt.map DCSection.name :=
            rfl
          rw [h4, ← List.append_assoc]
          exact h2

theorem invSt_init : InvSt [] [] [("_meta", Entry.meta [])] := by
  refine ⟨by decide, ?_, ?_⟩
  · intro n hn
    cases hn
  · intro k e hk
    rw [lookup'_cons] at hk
    by_cases hkm : ("_meta" == k) = true
    · exact Or.inl (eq_of_beq hkm).symm
    · rw [if_neg hkm, lookup'_nil] at hk
      exact Option.noConfusion hk

/-- A successful `inventory` run satisfies the builder invariant with the
full write trace and all section names, provided no section is named
`_meta` (see `c3_counterexample` for what happens otherwise). -/
theorem invSt_inventory (reSem : String → String → Bool) (api : ApiFun) (cfg : List DCSection)
    (doc : Doc) (hcfg : ∀ sec ∈ cfg, sec.name ≠ "_meta")
    (hok : inventory reSem api cfg = Except.ok doc) :
    InvSt (writesOf reSem api cfg) (cfg.map DCSection.name) doc := by
  have h := invSt_foldDCs reSem api cfg hcfg [] [] _ doc invSt_init hok
  rw [List.nil_append, List.nil_append] at h
  exact h

/-- **C3** (amended): provided no datacenter section is named `_meta`, in
every document returned by `inventory` every host IP appearing in any
group's host list — role groups and datacenter groups alike — has exactly
one entry in `_meta.hostvars`, and that entry equals the variables of the
last datacenter/role combination in processing order whose host list
produced the IP: last-writer-overwrite, not a merge. -/
theorem c3_last_writer_meta (reSem : String → String → Bool) (api : ApiFun)
    (cfg : List DCSection) (doc : Doc)
    (hcfg : ∀ sec ∈ cfg, sec.name ≠ "_meta")
    (hok : inventory reSem api cfg = Except.ok doc)
    (k : String) (g : GroupEntry) (h : String)
    (hk : lookup' doc k = some (Entry.group g)) (hh : h ∈ g.hosts) :
    metaLookup doc h = lastComboVars reSem api cfg h ∧
    (lastComboVars reSem api cfg h).isSome = true ∧
    ∃ m, metaHostvars doc = some m ∧ m.countP (fun p => p.1 == h) = 1 := by
  have hInv := invSt_inventory reSem api cfg doc hcfg hok
  rcases hInv.cls k _ hk with hkm | ⟨g', hge, hH, _, _⟩
  · rw [hkm, hInv.meta_eq] at hk
    injection hk with h2
    exact Entry.noConfusion h2
  · injection hge with h2
    subst h2
    have hmem : h ∈ (writesOf reSem api cfg).map Prod.fst := hH h hh
    have hmeta : metaHostvars doc = some (applyWrites [] (writesOf reSem api cfg)) := by
      rw [metaHostvars, hInv.meta_eq]
    have hlast : (lastWrite (writesOf reSem api cfg) h).isSome = true :=
      lastWrite_isSome_of_mem _ h hmem
    obtain ⟨v, hv⟩ := Option.isSome_iff_exists.mp hlast
    have hml : metaLookup doc h = some v := by
      rw [metaLookup, hmeta]
      show lookup' (applyWrites [] (writesOf reSem api cfg)) h = some v
      rw [lookup'_applyWrites, hv]
    refine ⟨?_, ?_, applyWrites [] (writesOf reSem api cfg), hmeta, ?_⟩
    · rw [hml, ← lastWrite_writesOf, hv]
    · rw [← lastWrite_writesOf, hv]
      rfl
    · refine countP_keys_eq_one _ h v ?_ ?_
      · exact keysNodup_applyWrites _ [] (by simp [keysNodup])
      · rw [lookup'_applyWrites, hv]

/-- **C3** (counterexample to the claim as stated): with a second
datacenter section named `_meta`, the builder overwrites the `_meta` entry
with that section's group; the returned document still lists `10.0.0.5` in
the `dc1` group, but `_meta.hostvars` is gone and the host has no hostvars
entry at all — not exactly one. -/
theorem c3_counterexample :
    (inventory reSemModel api1 [sec1, secMeta]).toOption.isSome = true ∧
    (inventory reSemModel api1 [sec1, secMeta]).toOption.bind (fun d => docHosts d "dc1")
      = some ["10.0.0.5"] ∧
    (inventory reSemModel api1 [sec1, secMeta]).toOption.bind (fun d => metaHostvars d)
      = none ∧
    (inventory reSemModel api1 [sec1, secMeta]).toOption.bind
        (fun d => metaLookup d "10.0.0.5")
      = none := by
  decide

/-- Witness for C3: in the single-VM scenario, `10.0.0.5` (a host of the
`dc1` group) has a hostvars entry equal to the last combination's
variables, and exactly one such entry. -/
theorem c3_witness :
    metaLookup doc1 "10.0.0.5" = lastComboVars reSemModel api1 [sec1] "10.0.0.5" ∧
    (lastComboVars reSemModel api1 [sec1] "10.0.0.5").isSome = true ∧
    ∃ m, metaHostvars doc1 = some m ∧ m.countP (fun p => p.1 == "10.0.0.5") = 1 :=
  c3_last_writer_meta reSemModel api1 [sec1] doc1 (by decide) (by decide) "dc1"
    ⟨["10.0.0.5"], some [("dc", PyVal.s "dc1")]⟩ "10.0.0.5" (by decide) (by decide)

/-- **C7** (amended): provided no section is named `_meta`, in every
returned document every top-level group keyed by a datacenter section name
carries a vars mapping, while every other group is one of the two role
groups `role=control` / `role=worker` and carries no vars mapping (its
dict has a hosts list only). -/
theorem c7_group_vars (reSem : String → String → Bool) (api : ApiFun)
    (cfg : List DCSection) (doc : Doc)
    (hcfg : ∀ sec ∈ cfg, sec.name ≠ "_meta")
    (hok : inventory reSem api cfg = Except.ok doc)
    (k : String) (g : GroupEntry) (hk : lookup' doc k = some (Entry.group g)) :
    (k ∈ cfg.map DCSection.name → g.vars.isSome = true) ∧
    (k ∉ cfg.map DCSection.name →
      g.vars = none ∧ (k = "role=control" ∨ k = "role=worker")) := by
  have hInv := invSt_inventory reSem api cfg doc hcfg hok
  rcases hInv.cls k _ hk with hkm | ⟨g', hge, _, hv1, hv2⟩
  · rw [hkm, hInv.meta_eq] at hk
    injection hk with h2
    exact Entry.noConfusion h2
  · injection hge with h2
    subst h2
    refine ⟨hv1, fun hnm => ?_⟩
    obtain ⟨hvn, hrk⟩ := hv2 hnm
    refine ⟨hvn, ?_⟩
    have hconc : roleKeys = ["role=control", "role=worker"] := by decide
    rw [hconc] at hrk
    rcases List.mem_cons.mp hrk with h3 | h3
    · exact Or.inl h3
    · exact Or.inr (List.mem_singleton.mp h3)

/-- **C7** (counterexample to the claim as stated): in the single-VM
scenario the returned document maps the top-level group `role=control` to
a dict holding only a host list — `vars = none` models the absence of the
`'vars'` key — so not every non-`_meta` group contains both a hosts list
and a vars mapping. -/
theorem c7_counterexample :
    (inventory reSemModel api1 [sec1]).toOption.isSome = true ∧
    (inventory reSemModel api1 [sec1]).toOption.bind (fun d => lookup' d "role=control")
      = some (Entry.group ⟨["10.0.0.5"], none⟩) := by
  decide

/-- Witness for C7: in the single-VM scenario, the `role=worker` group is
not a section name, carries no vars mapping, and is one of the two role
groups. -/
theorem c7_witness :
    (GroupEntry.mk [] none).vars = none ∧
    (("role=worker" : String) = "role=control" ∨ ("role=worker" : String) = "role=worker") :=
  (c7_group_vars reSemModel api1 [sec1] doc1 (by decide) (by decide) "role=worker"
      ⟨[], none⟩ (by decide)).2 (by decide)

end OvirtInv
